import Mathlib

/-!
Verification of the no-ipv6-dns-proxy repository against its natural-language
specification.  Each component the claims touch is shallowly embedded from the
Python source (`src/dns_proxy/...`): pure record transformations become Lean
functions, stateful objects become explicit state-passing functions, wall-clock
time becomes an explicit rational parameter, and fallible operations return
`Except`/`Option`.
-/

namespace DnsProxy

/-! ## DNS record model (twisted.names.dns constants and RRHeader)

`dns.A = 1`, `dns.CNAME = 5`, `dns.AAAA = 28`, `dns.IN = 1`.  An `RRHeader`
carries `(name, type, cls, ttl, payload)`; the payload (rdata) is opaque to all
the code under study, so it is modelled as a natural number token. -/

def dnsA : Nat := 1
def dnsIN : Nat := 1
def dnsCNAME : Nat := 5
def dnsAAAA : Nat := 28

structure RRHeader where
  name : String
  rtype : Nat
  cls : Nat
  ttl : Nat
  rdata : Nat
deriving DecidableEq, Repr

/-- A DNS response message restricted to the three RR sections, the only parts
`_process_address_query` and its helpers read or write
(`dns_resolver.py`, class `DNSMessage` / `dns.Message`). -/
structure Message where
  answers : List RRHeader
  authority : List RRHeader
  additional : List RRHeader
deriving DecidableEq, Repr

/-! ## Resolver response transformation (`dns_resolver.py`, `DNSProxyResolver`) -/

/-- Python `DNSProxyResolver._count_cnames` (dns_resolver.py:290-295): CNAME records
counted over all three sections. -/
def count_cnames (r : Message) : Nat :=
  (r.answers.filter (fun rr => rr.rtype = dnsCNAME)).length
    + (r.authority.filter (fun rr => rr.rtype = dnsCNAME)).length
    + (r.additional.filter (fun rr => rr.rtype = dnsCNAME)).length

/-- Python `DNSProxyResolver._flatten_cname_chain` (dns_resolver.py:297-349).
`remove_aaaa` is the resolver's AAAA-suppression flag.  Tail A records (and,
when suppression is off, tail AAAA records) from the answer section are
re-emitted under the original query name with class IN and the tail's ttl and
payload; authority and additional are cleared.  With no tail addresses all
three sections are cleared. -/
def flatten_cname_chain (remove_aaaa : Bool) (r : Message) (query_name : String) : Message :=
  let a_records := r.answers.filter (fun rr => rr.rtype = dnsA)
  let aaaa_records := r.answers.filter (fun rr => rr.rtype = dnsAAAA)
  if !a_records.isEmpty || !aaaa_records.isEmpty then
    let flattened :=
      a_records.map (fun a => RRHeader.mk query_name dnsA dnsIN a.ttl a.rdata)
        ++ (if !remove_aaaa && !aaaa_records.isEmpty then
              aaaa_records.map (fun a => RRHeader.mk query_name dnsAAAA dnsIN a.ttl a.rdata)
            else [])
    Message.mk flattened [] []
  else
    Message.mk [] [] []

/-- Python `DNSProxyResolver._remove_aaaa_records` (dns_resolver.py:365-380): drop
AAAA RRs from every section. -/
def remove_aaaa_records (r : Message) : Message :=
  Message.mk
    (r.answers.filter (fun rr => rr.rtype ≠ dnsAAAA))
    (r.authority.filter (fun rr => rr.rtype ≠ dnsAAAA))
    (r.additional.filter (fun rr => rr.rtype ≠ dnsAAAA))

/-- Python `DNSProxyResolver._process_address_query` (dns_resolver.py:270-288), the
transform applied when `query_type ∈ {A, AAAA}`.  Note that the source
consults `query_type` nowhere in the body: the AAAA-stripping branch fires for
AAAA queries exactly as for A queries. -/
def process_address_query (remove_aaaa : Bool) (r : Message) (query_name : String)
    (query_type : Nat) : Message :=
  if count_cnames r > 0 then
    flatten_cname_chain remove_aaaa r query_name
  else
    if remove_aaaa then remove_aaaa_records r else r

/-- Bool-level check that a message holds no AAAA RR in any section. -/
def noAaaa (r : Message) : Bool :=
  (r.answers ++ r.authority ++ r.additional).all (fun rr => rr.rtype ≠ dnsAAAA)

/-! ## Cache (`cache.py`, class `DNSCache`)

The backing store is a Python `OrderedDict`: entries are modelled as a list
ordered front-to-back from least to most recently inserted/used, mirroring the
dict's iteration order.  `popitem(last=False)` removes the front.  Wall-clock
time (`time.time()`) is an explicit rational parameter; the random/interval
gate that decides whether `get` runs `_cleanup_expired` is an explicit boolean
parameter (`should_cleanup`). -/

structure Entry (α : Type) where
  key : String
  data : α
  expiry : ℚ
deriving DecidableEq, Repr

/-- First entry with the given key (Python dict membership/lookup; keys are
unique in a real dict, the model uses first-match semantics throughout). -/
def findEntry {α : Type} (l : List (Entry α)) (k : String) : Option (Entry α) :=
  l.find? (fun e => e.key == k)

/-- Python `d[k] = v` on an OrderedDict: replace in place when present (keeping the
slot's position), otherwise append at the most-recent end. -/
def updAssoc {α : Type} : List (Entry α) → Entry α → List (Entry α)
  | [], e => [e]
  | x :: t, e => if x.key == e.key then e :: t else x :: updAssoc t e

/-- Python `del d[k]`: remove the (first) entry with the given key. -/
def delAssoc {α : Type} : List (Entry α) → String → List (Entry α)
  | [], _ => []
  | x :: t, k => if x.key == k then t else x :: delAssoc t k

/-- Python `OrderedDict.move_to_end(key)`: the entry is moved to the most-recent end,
keeping its value.  Only invoked by the source when the key is present. -/
def moveToEnd {α : Type} (l : List (Entry α)) (k : String) : List (Entry α) :=
  match findEntry l k with
  | some e => delAssoc l k ++ [e]
  | none => l

/-- Python `DNSCache._cleanup_expired` (cache.py:38-48): delete every entry whose
expiry lies strictly in the past. -/
def cleanupExpired {α : Type} (l : List (Entry α)) (now : ℚ) : List (Entry α) :=
  l.filter (fun e => decide (now ≤ e.expiry))

structure DNSCache (α : Type) where
  max_size : Nat
  default_ttl : ℚ
  entries : List (Entry α)
  hits : Nat
  misses : Nat
  evictions : Nat
deriving Repr

/-- A freshly constructed `DNSCache(max_size, default_ttl)` (cache.py:30-36). -/
def DNSCache.empty (α : Type) (max_size : Nat) (default_ttl : ℚ) : DNSCache α :=
  DNSCache.mk max_size default_ttl [] 0 0 0

/-- The lookup part of `DNSCache.get` (cache.py:67-78), after the optional
cleanup: a hit requires `now ≤ expiry` and moves the entry to the most-recent
end; an expired entry is deleted and counted as a miss. -/
def getCore {α : Type} (c : DNSCache α) (key : String) (now : ℚ) :
    Option α × DNSCache α :=
  match findEntry c.entries key with
  | some e =>
      if now ≤ e.expiry then
        (some e.data, { c with entries := moveToEnd c.entries key, hits := c.hits + 1 })
      else
        (none, { c with entries := delAssoc c.entries key, misses := c.misses + 1 })
  | none => (none, { c with misses := c.misses + 1 })

/-- Python `DNSCache.get` (cache.py:50-78).  Returns the looked-up data and the
updated cache; `should_cleanup` is the source's time/probability gate for
running `_cleanup_expired` first. -/
def DNSCache.get {α : Type} (c : DNSCache α) (key : String) (now : ℚ)
    (should_cleanup : Bool) : Option α × DNSCache α :=
  getCore
    (if should_cleanup then { c with entries := cleanupExpired c.entries now } else c)
    key now

/-- The `while len(self._cache) >= self.max_size: self._cache.popitem(last=False)`
loop of `DNSCache.set` (cache.py:89-91).  Returns the surviving entries and the
number of evictions, or an error when `popitem` is reached with an empty store
(Python `KeyError`), which happens exactly when `max_size = 0`. -/
def evictRun {α : Type} (max_size : Nat) : List (Entry α) → Except Unit (List (Entry α) × Nat)
  | [] => if max_size = 0 then Except.error () else Except.ok ([], 0)
  | x :: t =>
      if (x :: t).length ≥ max_size then
        match evictRun max_size t with
        | Except.error e => Except.error e
        | Except.ok (l, n) => Except.ok (l, n + 1)
      else
        Except.ok (x :: t, 0)

/-- Python `DNSCache.set` (cache.py:80-93): compute the absolute expiry, evict from
the least-recently-used front while at capacity, then store.  `ttl = none`
models Python's `ttl=None` defaulting to `default_ttl`. -/
def DNSCache.set {α : Type} (c : DNSCache α) (key : String) (data : α)
    (ttl : Option ℚ) (now : ℚ) : Except Unit (DNSCache α) :=
  let t := ttl.getD c.default_ttl
  let expiry := now + t
  match evictRun c.max_size c.entries with
  | Except.error e => Except.error e
  | Except.ok (l, n) =>
      Except.ok { c with
        entries := updAssoc l (Entry.mk key data expiry),
        evictions := c.evictions + n }

/-- Python `DNSCache.clear` (cache.py:95-98). -/
def DNSCache.clear {α : Type} (c : DNSCache α) : DNSCache α :=
  { c with entries := [] }

/-- One client-visible cache operation, with its ambient time and (for `get`)
the cleanup-gate decision. -/
inductive CacheOp (α : Type) where
  | get (key : String) (now : ℚ) (should_cleanup : Bool)
  | set (key : String) (data : α) (ttl : Option ℚ) (now : ℚ)
  | clear

/-- Apply one operation.  In the `max_size ≥ 1` regime `set` never errors; on
the (then unreachable) error the state is returned unchanged, matching the
Python exception propagating out of `set` with the store untouched. -/
def applyOp {α : Type} (c : DNSCache α) : CacheOp α → DNSCache α
  | CacheOp.get k now sc => (c.get k now sc).2
  | CacheOp.set k v ttl now =>
      match c.set k v ttl now with
      | Except.ok c' => c'
      | Except.error _ => c
  | CacheOp.clear => c.clear

/-- Number of entries the `set` eviction loop removes from a store of the
given length. -/
def evictCount (max_size len : Nat) : Nat :=
  if len < max_size then 0 else len + 1 - max_size

/-! ## Rate limiter (`rate_limiter.py`)

`TokenBucket` and `RateLimiter` transcribed with explicit time; the
`defaultdict(int)` statistics map becomes an association list where a missing
key counts as zero. -/

structure TokenBucket where
  rate : ℚ
  burst : ℚ
  tokens : ℚ
  last_update : ℚ
deriving DecidableEq, Repr

/-- Python `TokenBucket.__init__` (rate_limiter.py:25-36): a fresh bucket starts full
with `last_update` at creation time. -/
def TokenBucket.init (rate burst now : ℚ) : TokenBucket :=
  TokenBucket.mk rate burst burst now

/-- Python `TokenBucket.consume` (rate_limiter.py:38-58) with the requested token
count explicit (the source's default is 1). -/
def TokenBucket.consume (b : TokenBucket) (now : ℚ) (req : ℚ) : Bool × TokenBucket :=
  let elapsed := now - b.last_update
  let tokens := min b.burst (b.tokens + elapsed * b.rate)
  if req ≤ tokens then
    (true, { b with tokens := tokens - req, last_update := now })
  else
    (false, { b with tokens := tokens, last_update := now })

/-- Python `defaultdict(int)` increment: `stats[k] += 1`. -/
def bump : List (String × Nat) → String → List (String × Nat)
  | [], k => [(k, 1)]
  | (k', n) :: t, k => if k' == k then (k', n + 1) :: t else (k', n) :: bump t k

/-- Read a statistics counter, missing keys count as zero. -/
def statGet (l : List (String × Nat)) (k : String) : Nat :=
  ((l.find? (fun p => p.1 == k)).map Prod.snd).getD 0

/-- Dict lookup on the per-IP bucket table. -/
def bucketFind (l : List (String × TokenBucket)) (ip : String) : Option TokenBucket :=
  ((l.find? (fun p => p.1 == ip)).map Prod.snd)

/-- In-place replacement of an IP's bucket (mutating `self.buckets[ip]`). -/
def bucketUpd : List (String × TokenBucket) → String → TokenBucket → List (String × TokenBucket)
  | [], ip, b => [(ip, b)]
  | (k, b') :: t, ip, b => if k == ip then (k, b) :: t else (k, b') :: bucketUpd t ip b

structure RateLimiter where
  rate_per_ip : ℚ
  burst_per_ip : ℚ
  cleanup_interval : ℚ
  buckets : List (String × TokenBucket)
  last_cleanup : ℚ
  stats : List (String × Nat)
deriving DecidableEq, Repr

/-- Python `RateLimiter._cleanup_if_needed` (rate_limiter.py:117-133): at most every
`cleanup_interval`, drop every bucket that is full (idle). -/
def RateLimiter.cleanup_if_needed (rl : RateLimiter) (now : ℚ) : RateLimiter :=
  if now - rl.last_cleanup < rl.cleanup_interval then rl
  else
    { rl with
      last_cleanup := now,
      buckets := rl.buckets.filter (fun p => decide (p.2.tokens < p.2.burst)) }

/-- The get-or-create step of `is_allowed` (rate_limiter.py:100-102) on the
post-cleanup state. -/
def bucketForCallCore (rl : RateLimiter) (ip : String) (now : ℚ) : TokenBucket :=
  match bucketFind rl.buckets ip with
  | some b => b
  | none => TokenBucket.init rl.rate_per_ip rl.burst_per_ip now

/-- The bucket `is_allowed` operates on after its cleanup and get-or-create
steps (rate_limiter.py:98-102). -/
def RateLimiter.bucketForCall (rl0 : RateLimiter) (ip : String) (now : ℚ) : TokenBucket :=
  bucketForCallCore (rl0.cleanup_if_needed now) ip now

/-- The consume-and-count tail of `is_allowed` (rate_limiter.py:104-115):
consume one token from the IP's bucket `b0` sitting in table `bs`, then bump
the statistics according to the outcome. -/
def consumeStep (rl : RateLimiter) (bs : List (String × TokenBucket)) (ip : String)
    (b0 : TokenBucket) (now : ℚ) : Bool × RateLimiter :=
  let allowed_b := b0.consume now 1
  let rl1 := { rl with buckets := bucketUpd bs ip allowed_b.2 }
  if allowed_b.1 then
    (true, { rl1 with stats := bump rl1.stats "allowed" })
  else
    (false, { rl1 with stats := bump (bump rl1.stats "blocked") ("blocked_" ++ ip) })

/-- The body of `is_allowed` after the cleanup step: get-or-create the IP's
bucket (`tokens = burst`, `last_update = now` on creation), consume one token,
update statistics. -/
def isAllowedCore (rl : RateLimiter) (ip : String) (now : ℚ) : Bool × RateLimiter :=
  match bucketFind rl.buckets ip with
  | some b0 => consumeStep rl rl.buckets ip b0 now
  | none =>
      consumeStep rl
        (rl.buckets ++ [(ip, TokenBucket.init rl.rate_per_ip rl.burst_per_ip now)])
        ip (TokenBucket.init rl.rate_per_ip rl.burst_per_ip now) now

/-- Python `RateLimiter.is_allowed` (rate_limiter.py:87-115). -/
def RateLimiter.is_allowed (rl0 : RateLimiter) (ip : String) (now : ℚ) :
    Bool × RateLimiter :=
  isAllowedCore (rl0.cleanup_if_needed now) ip now

/-! ## Health metrics (`health/metrics.py`)

Response-time samples live in a `deque(maxlen=100)`, modelled as a list with
the oldest sample in front; times are rationals in seconds, derived latency
statistics are in milliseconds as in the source. -/

inductive QueryResult where
  | success
  | timeout
  | error
  | refused
deriving DecidableEq, Repr

structure ServerMetrics where
  response_times : List ℚ
  total_queries : Nat
  successful_queries : Nat
  failed_queries : Nat
  consecutive_failures : Nat
  last_query_time : Option ℚ
  last_success_time : Option ℚ
  last_failure_time : Option ℚ
  is_healthy : Bool
  marked_down_at : Option ℚ
deriving DecidableEq, Repr

/-- Field defaults of the `ServerMetrics` dataclass (metrics.py:21-42). -/
def ServerMetrics.init : ServerMetrics :=
  ServerMetrics.mk [] 0 0 0 0 none none none true none

/-- Python `deque(maxlen=100).append`: when full, the oldest (front) sample drops. -/
def dequeAppend (l : List ℚ) (x : ℚ) : List ℚ :=
  if 100 ≤ l.length then l.tail ++ [x] else l ++ [x]

/-- Python `ServerMetrics.record_query` (metrics.py:44-70).  On success the counters
reset and — crucially — `is_healthy` flips to true immediately; on any failure
the failure counters advance. -/
def ServerMetrics.record_query (m : ServerMetrics) (result : QueryResult)
    (response_time : Option ℚ) (now : ℚ) : ServerMetrics :=
  let m := { m with total_queries := m.total_queries + 1, last_query_time := some now }
  match result with
  | QueryResult.success =>
      let m := { m with
        successful_queries := m.successful_queries + 1,
        consecutive_failures := 0,
        last_success_time := some now }
      let m := match response_time with
        | some rt => { m with response_times := dequeAppend m.response_times rt }
        | none => m
      if m.is_healthy then m else { m with is_healthy := true, marked_down_at := none }
  | _ =>
      { m with
        failed_queries := m.failed_queries + 1,
        consecutive_failures := m.consecutive_failures + 1,
        last_failure_time := some now }

/-- Python `ServerMetrics.mark_unhealthy` (metrics.py:72-77). -/
def ServerMetrics.mark_unhealthy (m : ServerMetrics) (now : ℚ) : ServerMetrics :=
  if m.is_healthy then { m with is_healthy := false, marked_down_at := some now } else m

/-- Python `ServerMetrics.success_rate` (metrics.py:79-84). -/
def ServerMetrics.success_rate (m : ServerMetrics) : ℚ :=
  if m.total_queries = 0 then 1
  else (m.successful_queries : ℚ) / (m.total_queries : ℚ)

/-- Python `ServerMetrics.average_response_time` (metrics.py:86-91), in milliseconds. -/
def ServerMetrics.average_response_time (m : ServerMetrics) : Option ℚ :=
  if m.response_times.isEmpty then none
  else some (m.response_times.sum / (m.response_times.length : ℚ) * 1000)

/-- Python `ServerMetrics.health_score` (metrics.py:106-125).  Zero when the server
is marked unhealthy; otherwise the success rate, attenuated once the average
latency exceeds 100 ms, with the penalty capped at 0.5 from 1000 ms up. -/
def ServerMetrics.health_score (m : ServerMetrics) : ℚ :=
  if !m.is_healthy then 0
  else
    let score := m.success_rate
    match m.average_response_time with
    | some avg =>
        if avg > 100 then
          let time_penalty := min ((avg - 100) / 900) (1 / 2)
          score * (1 - time_penalty)
        else score
    | none => score

/-- The latency penalty factor exactly as the specification words it (§4.5 of
spec.md): 1 for average latency ≤ 100 ms, linear attenuation above, capped at
0.5 from 1000 ms; `none` (no samples) gives no penalty.  Used to state claim
C8 against the code's `health_score`. -/
def latencyPenaltySpec (avg : Option ℚ) : ℚ :=
  match avg with
  | some a => if a > 100 then 1 - min ((a - 100) / 900) (1 / 2) else 1
  | none => 1

/-! ## Health monitor (`health/monitor.py`), single-server view

`HealthMonitor.record_query_result` only ever touches the metrics of the named
server, so the state is modelled per server together with the monitor's
`_startup_time`. -/

/-- Python `HealthCheckConfig` (monitor.py:26-41) with the constants of
`constants.py` as defaults. -/
structure HealthCheckConfig where
  interval : ℚ
  timeout : ℚ
  failure_threshold : Nat
  recovery_threshold : Nat
deriving DecidableEq, Repr

def HealthCheckConfig.defaults : HealthCheckConfig :=
  HealthCheckConfig.mk 30 3 3 2

/-- Python `HEALTH_CHECK_STARTUP_DELAY` (constants.py:53). -/
def HEALTH_CHECK_STARTUP_DELAY : ℚ := 5

/-- Python `HealthMonitor._count_recent_successes` (monitor.py:217-224). -/
def countRecentSuccesses (cfg : HealthCheckConfig) (m : ServerMetrics) (now : ℚ) : ℤ :=
  if m.consecutive_failures = 0 then
    match m.last_success_time with
    | some t => ⌊(now - t) / cfg.interval⌋
    | none => 0
  else 0

structure MonitorState where
  metrics : ServerMetrics
  startup_time : ℚ
deriving DecidableEq, Repr

/-- Python `HealthMonitor.record_query_result` (monitor.py:226-258) for the named
server.  The metrics update (which already resets `is_healthy` on success)
runs first; then the monitor applies its recovery / failure-threshold logic,
suppressing `Unhealthy` transitions inside the startup grace window. -/
def recordQueryResult (cfg : HealthCheckConfig) (st : MonitorState) (result : QueryResult)
    (response_time : Option ℚ) (now : ℚ) : MonitorState :=
  let m := st.metrics.record_query result response_time now
  match result with
  | QueryResult.success =>
      if !m.is_healthy && m.consecutive_failures == 0 then
        if (cfg.recovery_threshold : ℤ) ≤ countRecentSuccesses cfg m now then
          { st with metrics := { m with is_healthy := true, marked_down_at := none } }
        else { st with metrics := m }
      else { st with metrics := m }
  | _ =>
      if now - st.startup_time < HEALTH_CHECK_STARTUP_DELAY then
        { st with metrics := m }
      else if m.is_healthy && cfg.failure_threshold ≤ m.consecutive_failures then
        { st with metrics := m.mark_unhealthy now }
      else { st with metrics := m }

/-! ## Selector (`health/selector.py`) and health-aware forwarding
(`dns_resolver_health.py`)

Python's `sorted` is stable, as is `List.insertionSort` with a total preorder,
so the sort-based selectors are embedded through `insertionSort`.  String
comparison is Python's code-point lexicographic order, spelled out on the
character lists so that it evaluates. -/

structure UpstreamServer where
  name : String
  address : String
  port : Nat
  weight : Nat
  priority : Nat
deriving DecidableEq, Repr

structure ServerHealth where
  server : UpstreamServer
  metrics : ServerMetrics
deriving DecidableEq, Repr

def charLtB (a b : Char) : Bool := a.toNat < b.toNat

/-- Lexicographic code-point order on strings (Python `<` on str). -/
def strLtL : List Char → List Char → Bool
  | [], [] => false
  | [], _ :: _ => true
  | _ :: _, [] => false
  | a :: as, b :: bs => charLtB a b || (a == b && strLtL as bs)

def strLt (a b : String) : Bool := strLtL a.data b.data

/-- The `(priority, name)` sort key of `FailoverSelector.select`
(selector.py:116): a comes no later than b. -/
def failoverLe (a b : ServerHealth) : Prop :=
  a.server.priority < b.server.priority ∨
    (a.server.priority = b.server.priority ∧ strLt b.server.name a.server.name = false)

instance : DecidableRel failoverLe := fun a b => by
  unfold failoverLe; infer_instance

/-- Python `FailoverSelector.select` (selector.py:111-118): first server after a
stable sort by ascending `(priority, name)`. -/
def failoverSelect (servers : List ServerHealth) : Option ServerHealth :=
  if servers.isEmpty then none
  else (List.insertionSort failoverLe servers).head?

/-- Descending `health_score` order for the last-resort branch of
`select_server` (selector.py:189-191, `sorted(..., reverse=True)`). -/
def scoreGe (a b : ServerHealth) : Prop :=
  b.metrics.health_score ≤ a.metrics.health_score

instance : DecidableRel scoreGe := fun a b => by
  unfold scoreGe; infer_instance

/-- Python `ServerSelector.select_server` (selector.py:173-209), parameterised by the
configured strategy's `select` function. -/
def select_server (sel : List ServerHealth → Option ServerHealth)
    (all_servers : List ServerHealth) : Option (String × Nat) :=
  let healthy := all_servers.filter (fun s => s.metrics.is_healthy)
  if healthy.isEmpty then
    if !all_servers.isEmpty then
      match (List.insertionSort scoreGe all_servers).head? with
      | some s => some (s.server.address, s.server.port)
      | none => none
    else none
  else
    match sel healthy with
    | some s => some (s.server.address, s.server.port)
    | none => none

/-- Loop body of `ServerSelector.select_multiple_servers`
(selector.py:231-243): repeatedly select among the servers not yet used. -/
def selectMultipleAux (sel : List ServerHealth → Option ServerHealth)
    (healthy : List ServerHealth) : Nat → List String → List (String × Nat)
  | 0, _ => []
  | Nat.succ n, used =>
      let available := healthy.filter (fun s => !used.contains s.server.name)
      if available.isEmpty then []
      else
        match sel available with
        | some s =>
            (s.server.address, s.server.port) ::
              selectMultipleAux sel healthy n (used ++ [s.server.name])
        | none => selectMultipleAux sel healthy n used

/-- Python `ServerSelector.select_multiple_servers` (selector.py:211-245). -/
def select_multiple_servers (sel : List ServerHealth → Option ServerHealth)
    (all_servers : List ServerHealth) (count : Nat) : List (String × Nat) :=
  let healthy := all_servers.filter (fun s => s.metrics.is_healthy)
  let healthy := if healthy.isEmpty then all_servers else healthy
  selectMultipleAux sel healthy (min count healthy.length) []

/-- What a chosen upstream does with the forwarded query: answers, raises
`DNSServerError`, times out, or fails otherwise. -/
inductive UpstreamOutcome where
  | answers (resp : Message)
  | serverError
  | queryTimeout
  | otherError
deriving DecidableEq, Repr

/-- The local names bound in `HealthAwareDNSResolver._forward_to_upstream`
when control reaches the fallback-loop body (dns_resolver_health.py:92-152):
parameters and every name assigned on the `except DNSServerError` path.
Notably `timeout`, `name`, `cls` and `type` — read by lines 153-154 — are
absent (`type` is a Python builtin but `timeout` is read first). -/
def forwardLoopScope : List String :=
  ["self", "query", "query_name", "all_servers", "server_tuple", "selected_server",
   "health", "server_name", "start_time", "client", "resolver", "e",
   "fallback_servers", "fallback"]

/-- One iteration of the fallback loop (dns_resolver_health.py:151-168).  Its
second statement evaluates the name `timeout`; with the name out of scope
Python raises `NameError`, which the bare `except: continue` swallows, so the
fallback upstream is never contacted.  The in-scope branch (never reached in
the source) would perform the lookup. -/
def fallbackAttempt (scope : List String) (behavior : String × Nat → UpstreamOutcome)
    (fb : String × Nat) : Except Unit Message :=
  if scope.contains "timeout" then
    match behavior fb with
    | UpstreamOutcome.answers r => Except.ok r
    | _ => Except.error ()
  else Except.error ()

/-- The `for fallback in fallback_servers[1:]` loop with `except: continue`. -/
def runFallbacks (behavior : String × Nat → UpstreamOutcome) :
    List (String × Nat) → Option ((String × Nat) × Message)
  | [] => none
  | fb :: rest =>
      match fallbackAttempt forwardLoopScope behavior fb with
      | Except.ok r => some (fb, r)
      | Except.error _ => runFallbacks behavior rest

/-- Result of `_forward_to_upstream`: either a response message or the
exception class that propagates to `resolve_query` (which converts any
exception into a SERVFAIL reply), together with the sequence of
`record_query_result` calls made to the health monitor. -/
structure ForwardOutput where
  result : Except String Message
  recorded : List (String × QueryResult)
deriving Repr

/-- The `server_name` lookup loop (dns_resolver_health.py:105-111). -/
def serverNameFor (all_servers : List ServerHealth) (tuple : String × Nat) : String :=
  match all_servers.find? (fun h => h.server.address == tuple.1 && h.server.port == tuple.2) with
  | some h => h.server.name
  | none => "unknown"

/-- Python `HealthAwareDNSResolver._forward_to_upstream` (dns_resolver_health.py:91-181).
`behavior` gives each upstream's reaction to this query.  Timeouts and generic
errors re-raise with no fallback attempt; `DNSServerError` records the refusal
and runs the (broken) fallback loop before re-raising. -/
def forward_to_upstream (sel : List ServerHealth → Option ServerHealth)
    (all_servers : List ServerHealth)
    (behavior : String × Nat → UpstreamOutcome) : ForwardOutput :=
  match select_server sel all_servers with
  | none => ForwardOutput.mk (Except.error "DNSServerError") []
  | some tuple =>
      let server_name := serverNameFor all_servers tuple
      match behavior tuple with
      | UpstreamOutcome.answers r =>
          ForwardOutput.mk (Except.ok r) [(server_name, QueryResult.success)]
      | UpstreamOutcome.serverError =>
          let recorded := [(server_name, QueryResult.refused)]
          let fallback_servers := select_multiple_servers sel all_servers 3
          if fallback_servers.length > 1 then
            match runFallbacks behavior fallback_servers.tail with
            | some fbr =>
                ForwardOutput.mk (Except.ok fbr.2)
                  (recorded ++ [(serverNameFor all_servers fbr.1, QueryResult.success)])
            | none => ForwardOutput.mk (Except.error "DNSServerError") recorded
          else ForwardOutput.mk (Except.error "DNSServerError") recorded
      | UpstreamOutcome.queryTimeout =>
          ForwardOutput.mk (Except.error "TimeoutError") [(server_name, QueryResult.timeout)]
      | UpstreamOutcome.otherError =>
          ForwardOutput.mk (Except.error "Exception") [(server_name, QueryResult.error)]

/-! ## UDP protocol pending-query table (`dns_resolver.py`, `DNSProxyProtocol`)

`pending_queries: Dict[int, Tuple[str, int]]` maps the DNS message id — and
nothing else — to the client address; `sent` records each
`transport.write(data, addr)`, with the response payload as an opaque token. -/

structure ProtoState where
  pending : List (Nat × String)
  sent : List (String × Nat)
deriving DecidableEq, Repr

def pendFind (l : List (Nat × String)) (qid : Nat) : Option String :=
  (l.find? (fun p => p.1 == qid)).map Prod.snd

/-- Python `self.pending_queries[query_id] = addr`: overwrite or append. -/
def pendUpd : List (Nat × String) → Nat → String → List (Nat × String)
  | [], qid, a => [(qid, a)]
  | (q, a') :: t, qid, a =>
      if q == qid then (q, a) :: t else (q, a') :: pendUpd t qid a

/-- Python `self.pending_queries.pop(query_id)`. -/
def pendDel : List (Nat × String) → Nat → List (Nat × String)
  | [], _ => []
  | (q, a) :: t, qid => if q == qid then t else (q, a) :: pendDel t qid

/-- Python `DNSProxyProtocol.datagramReceived` (dns_resolver.py:421-446), reduced to
its bookkeeping effect: store the client address under the query id. -/
def datagramReceived (st : ProtoState) (query_id : Nat) (addr : String) : ProtoState :=
  { st with pending := pendUpd st.pending query_id addr }

/-- Python `DNSProxyProtocol._send_response` (dns_resolver.py:448-476): a completed
resolution looks its query id up in `pending_queries`; if absent the response
is dropped, otherwise the entry is popped and the response written to the
stored address. -/
def send_response (st : ProtoState) (query_id : Nat) (resp : Nat) : ProtoState :=
  match pendFind st.pending query_id with
  | none => st
  | some addr =>
      ProtoState.mk (pendDel st.pending query_id) (st.sent ++ [(addr, resp)])

/-! ## Claim C1 — CNAME flattening law -/

/-- A response answering `(www.foo.test, A, IN)` with a CNAME, a tail A record
and a tail AAAA record. -/
def c1Input : Message :=
  Message.mk
    [RRHeader.mk "www.foo.test" dnsCNAME dnsIN 300 77,
     RRHeader.mk "foo.test" dnsA dnsIN 120 1001,
     RRHeader.mk "foo.test" dnsAAAA dnsIN 120 2002]
    [] []

/-- C1 counterexample: with AAAA suppression disabled, a response whose answer
holds a CNAME, one tail A record and one tail AAAA record is flattened to an
answer holding an AAAA RR besides the A RR, so the answer does not consist
exactly of one A RR per tail A record as the claim states. -/
theorem C1_counterexample :
    process_address_query false c1Input "www.foo.test" dnsA =
      Message.mk
        [RRHeader.mk "www.foo.test" dnsA dnsIN 120 1001,
         RRHeader.mk "www.foo.test" dnsAAAA dnsIN 120 2002]
        [] []
    ∧ (process_address_query false c1Input "www.foo.test" dnsA).answers ≠
        [RRHeader.mk "www.foo.test" dnsA dnsIN 120 1001] := by
  constructor
  · decide
  · decide

/-- C1 (amended): for every response to an A query whose answer section holds
at least one CNAME RR and at least one A RR, the transformed answer consists
of one A RR per tail A record — name = qname, class IN, the tail's ttl and
rdata — followed, when AAAA suppression is disabled and tail AAAA records
exist, by one AAAA RR per tail AAAA record; all CNAME RRs are removed and the
authority and additional sections are cleared. -/
theorem C1_flattening (remove_aaaa : Bool) (r : Message) (qname : String)
    (hc : r.answers.filter (fun rr => rr.rtype = dnsCNAME) ≠ [])
    (ha : r.answers.filter (fun rr => rr.rtype = dnsA) ≠ []) :
    process_address_query remove_aaaa r qname dnsA =
      Message.mk
        ((r.answers.filter (fun rr => rr.rtype = dnsA)).map
            (fun a => RRHeader.mk qname dnsA dnsIN a.ttl a.rdata)
          ++ (if !remove_aaaa && !(r.answers.filter (fun rr => rr.rtype = dnsAAAA)).isEmpty
              then (r.answers.filter (fun rr => rr.rtype = dnsAAAA)).map
                  (fun a => RRHeader.mk qname dnsAAAA dnsIN a.ttl a.rdata)
              else []))
        [] [] := by
  have h1 : count_cnames r > 0 := by
    unfold count_cnames
    have h0 : 0 < (r.answers.filter (fun rr => rr.rtype = dnsCNAME)).length :=
      List.length_pos.mpr hc
    omega
  have h2 : (r.answers.filter (fun rr => rr.rtype = dnsA)).isEmpty = false := by
    cases hE : (r.answers.filter (fun rr => rr.rtype = dnsA)).isEmpty
    · rfl
    · exact absurd (List.isEmpty_iff.mp hE) ha
  unfold process_address_query
  rw [if_pos h1]
  unfold flatten_cname_chain
  simp only [h2, Bool.not_false, Bool.true_or, if_true]

/-- Witness for `C1_flattening` at a concrete response with suppression on. -/
theorem C1_flattening_witness :
    process_address_query true c1Input "www.foo.test" dnsA =
      Message.mk [RRHeader.mk "www.foo.test" dnsA dnsIN 120 1001] [] [] := by
  rw [C1_flattening true c1Input "www.foo.test" (by decide) (by decide)]
  decide

/-! ## Claim C2 — AAAA suppression -/

/-- An AAAA response with no CNAMEs, for an AAAA query. -/
def c2Input : Message :=
  Message.mk [RRHeader.mk "host.test" dnsAAAA dnsIN 60 9001] [] []

/-- C2 counterexample: with suppression enabled and `qtype = AAAA`, the
response is not returned unchanged — `_process_address_query` never consults
the query type and strips the AAAA answer, leaving an empty answer section. -/
theorem C2_counterexample :
    process_address_query true c2Input "host.test" dnsAAAA ≠ c2Input
    ∧ process_address_query true c2Input "host.test" dnsAAAA =
        Message.mk [] [] [] := by
  constructor
  · decide
  · decide

/-- C2 (amended): with AAAA suppression enabled, the processed response
contains no AAAA RR in any section for **every** address query type — for
`qtype = A` as the claim states, but equally for `qtype = AAAA`, whose AAAA
RRs are stripped rather than kept. -/
theorem C2_aaaa_suppression (r : Message) (qname : String) (query_type : Nat) :
    noAaaa (process_address_query true r qname query_type) = true := by
  have hflat : noAaaa (flatten_cname_chain true r qname) = true := by
    simp only [flatten_cname_chain]
    split
    · simp [noAaaa, dnsA, dnsAAAA]
    · simp [noAaaa]
  have hrem : ∀ m : Message, noAaaa (remove_aaaa_records m) = true := by
    intro m
    simp only [remove_aaaa_records, noAaaa, List.all_eq_true, List.mem_append,
      List.mem_filter]
    rintro rr ((⟨_, h⟩ | ⟨_, h⟩) | ⟨_, h⟩) <;> simpa using h
  unfold process_address_query
  split
  · exact hflat
  · rw [if_pos rfl]
    exact hrem r

/-! ## Cache lemmas -/

section CacheLemmas

variable {α : Type}

theorem findEntry_cons {x : Entry α} {t : List (Entry α)} {k : String} :
    findEntry (x :: t) k = if x.key == k then some x else findEntry t k := by
  simp only [findEntry, List.find?]
  cases h : x.key == k <;> simp [h]

theorem updAssoc_length_le (l : List (Entry α)) (e : Entry α) :
    (updAssoc l e).length ≤ l.length + 1 := by
  induction l with
  | nil => simp [updAssoc]
  | cons x t ih =>
      simp only [updAssoc]
      split <;> simp <;> omega

theorem delAssoc_length_le (l : List (Entry α)) (k : String) :
    (delAssoc l k).length ≤ l.length := by
  induction l with
  | nil => simp [delAssoc]
  | cons x t ih =>
      simp only [delAssoc]
      split <;> simp <;> omega

theorem delAssoc_length_of_find {l : List (Entry α)} {k : String} {e : Entry α}
    (h : findEntry l k = some e) : (delAssoc l k).length + 1 = l.length := by
  induction l with
  | nil => simp [findEntry] at h
  | cons x t ih =>
      rw [findEntry_cons] at h
      simp only [delAssoc]
      by_cases hx : x.key == k
      · simp [hx]
      · rw [if_neg hx] at h ⊢
        simp only [List.length_cons]
        rw [← ih h]

theorem evictRun_ok (m : Nat) (hm : 1 ≤ m) (l : List (Entry α)) :
    evictRun m l = Except.ok (l.drop (evictCount m l.length), evictCount m l.length) := by
  induction l with
  | nil =>
      simp only [evictRun, evictCount]
      rw [if_neg (by omega), if_pos (by simp; omega)]
      simp
  | cons x t ih =>
      simp only [evictRun]
      by_cases hlen : (x :: t).length ≥ m
      · rw [if_pos hlen, ih]
        simp only [List.length_cons] at hlen ⊢
        have hc : evictCount m (t.length + 1) = evictCount m t.length + 1 := by
          simp only [evictCount]
          split <;> split <;> omega
        rw [hc]
        simp [List.drop_succ_cons]
      · rw [if_neg hlen]
        simp only [List.length_cons] at hlen
        have hc : evictCount m (t.length + 1) = 0 := by
          simp only [evictCount]
          rw [if_pos (by omega)]
        simp [hc]

/-- Lemma: `set` on a cache with `max_size ≥ 1` always succeeds, evicting exactly the
least-recently-used front segment and counting each eviction. -/
theorem set_ok {c : DNSCache α} (hm : 1 ≤ c.max_size) (k : String) (v : α)
    (ttl : Option ℚ) (now : ℚ) :
    c.set k v ttl now =
      Except.ok { c with
        entries := updAssoc (c.entries.drop (evictCount c.max_size c.entries.length))
          (Entry.mk k v (now + ttl.getD c.default_ttl)),
        evictions := c.evictions + evictCount c.max_size c.entries.length } := by
  unfold DNSCache.set
  rw [evictRun_ok c.max_size hm c.entries]

theorem moveToEnd_length_le (l : List (Entry α)) (k : String) :
    (moveToEnd l k).length ≤ l.length := by
  unfold moveToEnd
  cases h : findEntry l k with
  | none => simp
  | some e =>
      have := delAssoc_length_of_find h
      simp only [List.length_append, List.length_cons, List.length_nil]
      omega

theorem getCore_spec (c : DNSCache α) (k : String) (now : ℚ) :
    ∃ l' h' ms', (getCore c k now).2 = { c with entries := l', hits := h', misses := ms' }
      ∧ l'.length ≤ c.entries.length := by
  unfold getCore
  split
  · split
    · exact ⟨moveToEnd c.entries k, c.hits + 1, c.misses, rfl, moveToEnd_length_le _ _⟩
    · exact ⟨delAssoc c.entries k, c.hits, c.misses + 1, rfl, delAssoc_length_le _ _⟩
  · exact ⟨c.entries, c.hits, c.misses + 1, rfl, le_refl _⟩

theorem get_spec (c : DNSCache α) (k : String) (now : ℚ) (sc : Bool) :
    ∃ l' h' ms', (c.get k now sc).2 = { c with entries := l', hits := h', misses := ms' }
      ∧ l'.length ≤ c.entries.length := by
  unfold DNSCache.get
  cases sc
  · rw [if_neg (by decide)]
    exact getCore_spec c k now
  · rw [if_pos rfl]
    obtain ⟨l', h', ms', heq, hle⟩ :=
      getCore_spec { c with entries := cleanupExpired c.entries now } k now
    exact ⟨l', h', ms', heq,
      le_trans hle (List.length_filter_le _ c.entries)⟩

/-- Applying any operation preserves the capacity bound when `max_size ≥ 1`. -/
theorem applyOp_bound {c : DNSCache α} {m : Nat} (hm : 1 ≤ m) (op : CacheOp α)
    (hms : c.max_size = m) (hlen : c.entries.length ≤ m) :
    (applyOp c op).max_size = m ∧ (applyOp c op).entries.length ≤ m := by
  cases op with
  | get k now sc =>
      obtain ⟨l', h', ms', heq, hle⟩ := get_spec c k now sc
      simp only [applyOp, heq]
      exact ⟨hms, le_trans hle hlen⟩
  | set k v ttl now =>
      subst hms
      have hset := set_ok (c := c) hm k v ttl now
      simp only [applyOp, hset]
      refine ⟨trivial, ?_⟩
      have h1 := updAssoc_length_le
        (c.entries.drop (evictCount c.max_size c.entries.length))
        (Entry.mk k v (now + ttl.getD c.default_ttl))
      rw [List.length_drop] at h1
      by_cases hlt : c.entries.length < c.max_size
      · have hn : evictCount c.max_size c.entries.length = 0 := by
          unfold evictCount
          rw [if_pos hlt]
        rw [hn] at h1 ⊢
        omega
      · have hn : evictCount c.max_size c.entries.length
            = c.entries.length + 1 - c.max_size := by
          unfold evictCount
          rw [if_neg hlt]
        rw [hn] at h1 ⊢
        omega
  | clear =>
      simp only [applyOp, DNSCache.clear]
      exact ⟨hms, by simp⟩

/-- Run a sequence of operations. -/
def runOps (c : DNSCache α) (ops : List (CacheOp α)) : DNSCache α :=
  ops.foldl applyOp c

theorem runOps_bound {m : Nat} (hm : 1 ≤ m) (ops : List (CacheOp α))
    (c : DNSCache α) (hms : c.max_size = m) (hlen : c.entries.length ≤ m) :
    (runOps c ops).entries.length ≤ m := by
  induction ops generalizing c with
  | nil => exact hlen
  | cons op ops ih =>
      obtain ⟨h1, h2⟩ := applyOp_bound hm op hms hlen
      exact ih (applyOp c op) h1 h2

end CacheLemmas

/-! ## Claim C4 — cache bound and LRU eviction -/

/-- C4: on a cache with `max_size = m ≥ 1`: (1) after every sequence of
operations from a fresh cache the store holds at most `m` entries; (2) `set`
always succeeds, removes exactly the `evictCount` least-recently-used entries
from the front of the recency order and increments the evictions counter once
per removed entry, then stores the new entry; (3) `get` on a hit moves the
entry to the most-recent end of the order. -/
theorem C4_cache_bound {α : Type} (m : Nat) (hm : 1 ≤ m) :
    (∀ (dttl : ℚ) (ops : List (CacheOp α)),
        (runOps (DNSCache.empty α m dttl) ops).entries.length ≤ m)
    ∧ (∀ (c : DNSCache α) (k : String) (v : α) (ttl : Option ℚ) (now : ℚ),
        c.max_size = m →
        c.set k v ttl now = Except.ok { c with
          entries := updAssoc (c.entries.drop (evictCount m c.entries.length))
            (Entry.mk k v (now + ttl.getD c.default_ttl)),
          evictions := c.evictions + evictCount m c.entries.length })
    ∧ (∀ (c : DNSCache α) (k : String) (now : ℚ) (e : Entry α),
        findEntry c.entries k = some e → now ≤ e.expiry →
        (c.get k now false).2.entries = delAssoc c.entries k ++ [e]) := by
  refine ⟨?_, ?_, ?_⟩
  · intro dttl ops
    exact runOps_bound hm ops _ rfl (by simp [DNSCache.empty])
  · intro c k v ttl now hms
    subst hms
    exact set_ok hm k v ttl now
  · intro c k now e hf ht
    unfold DNSCache.get
    rw [if_neg (by decide)]
    unfold getCore
    simp only [hf, if_pos ht]
    unfold moveToEnd
    simp only [hf]

/-- Witness for `C4_cache_bound` at `m = 1` and two insertions. -/
theorem C4_cache_bound_witness :
    (runOps (DNSCache.empty Nat 1 300)
      [CacheOp.set "a" 1 (some 60) 0, CacheOp.set "b" 2 (some 60) 0]).entries.length ≤ 1 :=
  (C4_cache_bound 1 (by norm_num)).1 300 _

/-! ## Claim C10 — totality of `set` depends on `max_size` -/

/-- C10: `set` returns normally on every cache whose `max_size` is at least 1,
but on a cache constructed with `max_size = 0` the eviction loop reaches
`popitem` on the empty store and raises. -/
theorem C10_set_totality :
    (∀ (c : DNSCache Nat) (k : String) (v : Nat) (ttl : Option ℚ) (now : ℚ),
        1 ≤ c.max_size → ∃ c', c.set k v ttl now = Except.ok c')
    ∧ ∀ (k : String) (v : Nat) (ttl : Option ℚ) (now : ℚ) (dttl : ℚ),
        (DNSCache.empty Nat 0 dttl).set k v ttl now = Except.error () := by
  constructor
  · intro c k v ttl now hm
    exact ⟨_, set_ok hm k v ttl now⟩
  · intro k v ttl now dttl
    unfold DNSCache.set DNSCache.empty
    simp [evictRun]

/-- Witness for `C10_set_totality` on a concrete cache of capacity 10. -/
theorem C10_set_totality_witness :
    ∃ c', (DNSCache.empty Nat 10 300).set "k" 7 (some 60) 0 = Except.ok c' :=
  C10_set_totality.1 (DNSCache.empty Nat 10 300) "k" 7 (some 60) 0 (by decide)

/-! ## Membership lemmas for the C3 invariant -/

section C3Lemmas

variable {α : Type}

theorem mem_delAssoc_of_ne {x : Entry α} {l : List (Entry α)} {k : String}
    (hx : x ∈ l) (hk : x.key ≠ k) : x ∈ delAssoc l k := by
  induction l with
  | nil => simp at hx
  | cons h t ih =>
      rcases List.mem_cons.mp hx with rfl | hxt
      · simp only [delAssoc]
        rw [if_neg (by simpa using hk)]
        exact List.mem_cons_self _ _
      · simp only [delAssoc]
        split
        · exact hxt
        · exact List.mem_cons_of_mem _ (ih hxt)

theorem delAssoc_subset {x : Entry α} {l : List (Entry α)} {k : String}
    (hx : x ∈ delAssoc l k) : x ∈ l := by
  induction l with
  | nil => simpa [delAssoc] using hx
  | cons h t ih =>
      simp only [delAssoc] at hx
      split at hx
      · exact List.mem_cons_of_mem _ hx
      · rcases List.mem_cons.mp hx with rfl | hxt
        · exact List.mem_cons_self _ _
        · exact List.mem_cons_of_mem _ (ih hxt)

theorem mem_updAssoc_of_ne {x : Entry α} {l : List (Entry α)} {e : Entry α}
    (hx : x ∈ l) (hk : x.key ≠ e.key) : x ∈ updAssoc l e := by
  induction l with
  | nil => simp at hx
  | cons h t ih =>
      rcases List.mem_cons.mp hx with rfl | hxt
      · simp only [updAssoc]
        rw [if_neg (by simpa using hk)]
        exact List.mem_cons_self _ _
      · simp only [updAssoc]
        split
        · exact List.mem_cons_of_mem _ hxt
        · exact List.mem_cons_of_mem _ (ih hxt)

theorem updAssoc_mem {x : Entry α} {l : List (Entry α)} {e : Entry α}
    (hx : x ∈ updAssoc l e) : x = e ∨ x ∈ l := by
  induction l with
  | nil => simpa [updAssoc] using hx
  | cons h t ih =>
      simp only [updAssoc] at hx
      split at hx
      · rcases List.mem_cons.mp hx with rfl | hxt
        · exact Or.inl rfl
        · exact Or.inr (List.mem_cons_of_mem _ hxt)
      · rcases List.mem_cons.mp hx with rfl | hxt
        · exact Or.inr (List.mem_cons_self _ _)
        · rcases ih hxt with h1 | h1
          · exact Or.inl h1
          · exact Or.inr (List.mem_cons_of_mem _ h1)

theorem mem_updAssoc_self (l : List (Entry α)) (e : Entry α) : e ∈ updAssoc l e := by
  induction l with
  | nil => simp [updAssoc]
  | cons h t ih =>
      simp only [updAssoc]
      split
      · exact List.mem_cons_self _ _
      · exact List.mem_cons_of_mem _ ih

theorem findEntry_mem_key {l : List (Entry α)} {k : String} {e : Entry α}
    (h : findEntry l k = some e) : e ∈ l ∧ e.key = k := by
  have h1 := List.mem_of_find?_eq_some h
  have h2 := List.find?_some h
  exact ⟨h1, by simpa using h2⟩

theorem moveToEnd_mem {x : Entry α} {l : List (Entry α)} {k : String}
    (hx : x ∈ moveToEnd l k) : x ∈ l := by
  unfold moveToEnd at hx
  cases h : findEntry l k with
  | none => rwa [h] at hx
  | some e =>
      rw [h] at hx
      rcases List.mem_append.mp hx with h1 | h1
      · exact delAssoc_subset h1
      · rw [List.mem_singleton.mp h1]
        exact (findEntry_mem_key h).1

theorem mem_moveToEnd_of_ne {x : Entry α} {l : List (Entry α)} {k : String}
    (hx : x ∈ l) (hk : x.key ≠ k) : x ∈ moveToEnd l k := by
  unfold moveToEnd
  cases h : findEntry l k with
  | none => exact hx
  | some e => exact List.mem_append_left _ (mem_delAssoc_of_ne hx hk)

theorem mem_cleanup {x : Entry α} {l : List (Entry α)} {t : ℚ}
    (hx : x ∈ cleanupExpired l t) : x ∈ l :=
  List.mem_of_mem_filter hx

theorem mem_cleanup_of {x : Entry α} {l : List (Entry α)} {t : ℚ}
    (hx : x ∈ l) (ht : t ≤ x.expiry) : x ∈ cleanupExpired l t := by
  exact List.mem_filter.mpr ⟨hx, by simpa using ht⟩

theorem findEntry_eq_some_of {l : List (Entry α)} {k : String} {our : Entry α}
    (hmem : our ∈ l) (hq : ∀ x ∈ l, x.key = k → x = our) (hk : our.key = k) :
    findEntry l k = some our := by
  induction l with
  | nil => simp at hmem
  | cons h t ih =>
      rw [findEntry_cons]
      by_cases hh : h.key = k
      · rw [if_pos (by simpa using hh)]
        rw [hq h (List.mem_cons_self _ _) hh]
      · rw [if_neg (by simpa using hh)]
        rcases List.mem_cons.mp hmem with rfl | hmt
        · exact absurd hk hh
        · exact ih hmt (fun x hx hxk => hq x (List.mem_cons_of_mem _ hx) hxk)

theorem updAssoc_keyUnique {l : List (Entry α)} {e : Entry α}
    (hnd : (l.map Entry.key).Nodup) :
    ∀ x ∈ updAssoc l e, x.key = e.key → x = e := by
  induction l with
  | nil =>
      intro x hx _
      simpa [updAssoc] using hx
  | cons h t ih =>
      simp only [List.map_cons, List.nodup_cons] at hnd
      intro x hx hxk
      simp only [updAssoc] at hx
      by_cases hh : h.key == e.key
      · rw [if_pos hh] at hx
        rcases List.mem_cons.mp hx with rfl | hxt
        · rfl
        · exfalso
          apply hnd.1
          rw [List.mem_map]
          refine ⟨x, hxt, ?_⟩
          rw [hxk, ← (by simpa using hh : h.key = e.key)]
      · rw [if_neg hh] at hx
        rcases List.mem_cons.mp hx with rfl | hxt
        · exact absurd (hxk.trans rfl) (by simpa using hh)
        · exact ih hnd.2 x hxt hxk

theorem mem_drop_of_not_mem_take {x : Entry α} {l : List (Entry α)} {n : Nat}
    (hx : x ∈ l) (hnt : x ∉ l.take n) : x ∈ l.drop n := by
  rcases List.mem_append.mp (by rw [List.take_append_drop n l]; exact hx) with h | h
  · exact absurd h hnt
  · exact h

theorem evictRun_err (l : List (Entry α)) : evictRun 0 l = Except.error () := by
  induction l with
  | nil => simp [evictRun]
  | cons x t ih => simp [evictRun, ih]

/-- All entries of the cache carrying key `k` are this one entry (true of every
state reachable from a real dict, whose keys are unique). -/
def keyUnique (k : String) (our : Entry α) (c : DNSCache α) : Prop :=
  ∀ x ∈ c.entries, x.key = k → x = our

/-- Side conditions on one operation for the hit side of C3: it is not a
`clear`, not a `set` of `k`, it does not evict `k`, and it happens no later
than the expiry `e`. -/
def opOkHit (k : String) (e : ℚ) (c : DNSCache α) : CacheOp α → Prop
  | CacheOp.get _ now _ => now ≤ e
  | CacheOp.set k2 _ _ _ => k2 ≠ k ∧
      k ∉ (c.entries.take (evictCount c.max_size c.entries.length)).map Entry.key
  | CacheOp.clear => False

/-- The whole sequence satisfies `opOkHit` along its execution. -/
def safeRunHit (k : String) (e : ℚ) : DNSCache α → List (CacheOp α) → Prop
  | _, [] => True
  | c, op :: ops => opOkHit k e c op ∧ safeRunHit k e (applyOp c op) ops

/-- Side condition for the miss side of C3: no `set` of `k` and no `clear`. -/
def opOkNone (k : String) : CacheOp α → Prop
  | CacheOp.set k2 _ _ _ => k2 ≠ k
  | CacheOp.clear => False
  | _ => True

theorem getCore_entries_subset (c : DNSCache α) (k2 : String) (now : ℚ) :
    ∀ x ∈ (getCore c k2 now).2.entries, x ∈ c.entries := by
  intro x hx
  unfold getCore at hx
  split at hx
  · split at hx
    · exact moveToEnd_mem hx
    · exact delAssoc_subset hx
  · exact hx

theorem get_entries_subset (c : DNSCache α) (k2 : String) (now : ℚ) (sc : Bool) :
    ∀ x ∈ (c.get k2 now sc).2.entries, x ∈ c.entries := by
  intro x hx
  unfold DNSCache.get at hx
  cases sc
  · rw [if_neg (by decide)] at hx
    exact getCore_entries_subset c k2 now x hx
  · rw [if_pos rfl] at hx
    exact mem_cleanup (getCore_entries_subset _ k2 now x hx)

theorem getCore_inv {k : String} {our : Entry α} (c : DNSCache α)
    (hq : keyUnique k our c) (hmem : our ∈ c.entries) (hk : our.key = k)
    (k2 : String) (now : ℚ) (hnow : now ≤ our.expiry) :
    our ∈ (getCore c k2 now).2.entries := by
  unfold getCore
  cases hf : findEntry c.entries k2 with
  | none => simpa using hmem
  | some e2 =>
      by_cases hteq : now ≤ e2.expiry
      · simp only [if_pos hteq]
        by_cases hkk : k2 = k
        · subst hkk
          have he2 := findEntry_mem_key hf
          have he2our : e2 = our := hq e2 he2.1 he2.2
          show our ∈ moveToEnd c.entries k2
          unfold moveToEnd
          rw [hf, he2our]
          exact List.mem_append_right _ (List.mem_singleton.mpr rfl)
        · show our ∈ moveToEnd c.entries k2
          exact mem_moveToEnd_of_ne hmem (by rw [hk]; exact fun hc => hkk hc.symm)
      · simp only [if_neg hteq]
        by_cases hkk : k2 = k
        · subst hkk
          have he2 := findEntry_mem_key hf
          have he2our : e2 = our := hq e2 he2.1 he2.2
          rw [he2our] at hteq
          exact absurd hnow hteq
        · show our ∈ delAssoc c.entries k2
          exact mem_delAssoc_of_ne hmem (by rw [hk]; exact fun hc => hkk hc.symm)

theorem get_inv {k : String} {our : Entry α} (c : DNSCache α)
    (hq : keyUnique k our c) (hmem : our ∈ c.entries) (hk : our.key = k)
    (k2 : String) (now : ℚ) (sc : Bool) (hnow : now ≤ our.expiry) :
    our ∈ (c.get k2 now sc).2.entries := by
  unfold DNSCache.get
  cases sc
  · rw [if_neg (by decide)]
    exact getCore_inv c hq hmem hk k2 now hnow
  · rw [if_pos rfl]
    refine getCore_inv _ ?_ ?_ hk k2 now hnow
    · intro x hx hxk
      exact hq x (mem_cleanup hx) hxk
    · exact mem_cleanup_of hmem hnow

theorem applyOp_hit_inv {k : String} {our : Entry α} {c : DNSCache α} (op : CacheOp α)
    (hop : opOkHit k our.expiry c op)
    (hq : keyUnique k our c) (hmem : our ∈ c.entries) (hk : our.key = k) :
    keyUnique k our (applyOp c op) ∧ our ∈ (applyOp c op).entries := by
  cases op with
  | get k2 now sc =>
      refine ⟨?_, get_inv c hq hmem hk k2 now sc hop⟩
      intro x hx hxk
      exact hq x (get_entries_subset c k2 now sc x hx) hxk
  | set k2 v2 ttl2 now2 =>
      obtain ⟨hne, htk⟩ := hop
      cases hms : c.max_size with
      | zero =>
          have herr : c.set k2 v2 ttl2 now2 = Except.error () := by
            unfold DNSCache.set
            rw [hms, evictRun_err]
          simp only [applyOp, herr]
          exact ⟨hq, hmem⟩
      | succ m' =>
          have hset := set_ok (c := c) (by omega) k2 v2 ttl2 now2
          simp only [applyOp, hset]
          constructor
          · intro x hx hxk
            rcases updAssoc_mem hx with rfl | hx2
            · exact absurd hxk hne
            · exact hq x (List.drop_subset _ _ hx2) hxk
          · apply mem_updAssoc_of_ne
            · apply mem_drop_of_not_mem_take hmem
              intro hc
              exact htk (List.mem_map.mpr ⟨our, hc, hk⟩)
            · rw [hk]
              exact fun hcc => hne hcc.symm
  | clear => exact absurd hop (by simp [opOkHit])

theorem applyOp_none_inv {k : String} {our : Entry α} {c : DNSCache α} (op : CacheOp α)
    (hop : opOkNone k op) (hq : keyUnique k our c) :
    keyUnique k our (applyOp c op) := by
  cases op with
  | get k2 now sc =>
      intro x hx hxk
      exact hq x (get_entries_subset c k2 now sc x hx) hxk
  | set k2 v2 ttl2 now2 =>
      cases hms : c.max_size with
      | zero =>
          have herr : c.set k2 v2 ttl2 now2 = Except.error () := by
            unfold DNSCache.set
            rw [hms, evictRun_err]
          simp only [applyOp, herr]
          exact hq
      | succ m' =>
          have hset := set_ok (c := c) (by omega) k2 v2 ttl2 now2
          simp only [applyOp, hset]
          intro x hx hxk
          rcases updAssoc_mem hx with rfl | hx2
          · exact absurd hxk hop
          · exact hq x (List.drop_subset _ _ hx2) hxk
  | clear => exact absurd hop (by simp [opOkNone])

theorem runOps_hit_inv {k : String} {our : Entry α} (ops : List (CacheOp α))
    (c : DNSCache α) (hrun : safeRunHit k our.expiry c ops)
    (hq : keyUnique k our c) (hmem : our ∈ c.entries) (hk : our.key = k) :
    keyUnique k our (runOps c ops) ∧ our ∈ (runOps c ops).entries := by
  induction ops generalizing c with
  | nil => exact ⟨hq, hmem⟩
  | cons op ops ih =>
      obtain ⟨hop, hrest⟩ := hrun
      obtain ⟨hq', hmem'⟩ := applyOp_hit_inv op hop hq hmem hk
      exact ih (applyOp c op) hrest hq' hmem'

theorem runOps_none_inv {k : String} {our : Entry α} (ops : List (CacheOp α))
    (c : DNSCache α) (hops : ∀ op ∈ ops, opOkNone k op)
    (hq : keyUnique k our c) : keyUnique k our (runOps c ops) := by
  induction ops generalizing c with
  | nil => exact hq
  | cons op ops ih =>
      exact ih (applyOp c op)
        (fun o ho => hops o (List.mem_cons_of_mem _ ho))
        (applyOp_none_inv op (hops op (List.mem_cons_self _ _)) hq)

theorem get_hit_result {k : String} {our : Entry α} (c : DNSCache α)
    (hq : keyUnique k our c) (hmem : our ∈ c.entries) (hk : our.key = k)
    (now : ℚ) (sc : Bool) (hnow : now ≤ our.expiry) :
    (c.get k now sc).1 = some our.data := by
  have hcore : ∀ (c' : DNSCache α), keyUnique k our c' → our ∈ c'.entries →
      (getCore c' k now).1 = some our.data := by
    intro c' hq' hmem'
    unfold getCore
    have hfind := findEntry_eq_some_of hmem' hq' hk
    simp only [hfind, if_pos hnow]
  unfold DNSCache.get
  cases sc
  · rw [if_neg (by decide)]
    exact hcore c hq hmem
  · rw [if_pos rfl]
    exact hcore _ (fun x hx hxk => hq x (mem_cleanup hx) hxk) (mem_cleanup_of hmem hnow)

theorem get_none_result {k : String} {our : Entry α} (c : DNSCache α)
    (hq : keyUnique k our c) (hk : our.key = k) (now : ℚ) (sc : Bool)
    (hnow : our.expiry < now) :
    (c.get k now sc).1 = none := by
  have hcore : ∀ (c' : DNSCache α), keyUnique k our c' →
      (getCore c' k now).1 = none := by
    intro c' hq'
    unfold getCore
    cases hf : findEntry c'.entries k with
    | none => simp
    | some e2 =>
        have he2 := findEntry_mem_key hf
        have he2our : e2 = our := hq' e2 he2.1 he2.2
        subst he2our
        simp only [if_neg (not_le.mpr hnow)]
  unfold DNSCache.get
  cases sc
  · rw [if_neg (by decide)]
    exact hcore c hq
  · rw [if_pos rfl]
    exact hcore _ (fun x hx hxk => hq x (mem_cleanup hx) hxk)

end C3Lemmas

/-! ## Claim C3 — TTL law of the cache -/

/-- C3 counterexample: set at time 0 with ttl 5, then get at time 5 — exactly
`set_time + ttl`.  The claim requires `none` at every time ≥ `set_time + ttl`,
but the source's hit test is `now <= expiry`, so the value is still returned. -/
theorem C3_counterexample :
    ((applyOp (DNSCache.empty Nat 10 300) (CacheOp.set "k" 7 (some 5) 0)).get
        "k" 5 false).1 = some 7 := by
  have h5 : (5 : ℚ) ≤ 0 + 5 := by norm_num
  simp [applyOp, DNSCache.set, DNSCache.empty, evictRun, updAssoc, DNSCache.get,
    getCore, findEntry, List.find?, moveToEnd, delAssoc, h5]

/-- C3 (amended): on a cache with unique keys, after `set k v ttl` at time
`t0` succeeds, and given any intervening operations that do not set `k`, clear
the cache, or evict `k` (and, for the hit side, run no later than the expiry):
`get k` returns `v` at every time `now ≤ t0 + ttl` — including the boundary —
and returns `none` at every time `now > t0 + ttl`; an entry whose expiry has
strictly passed is never returned as a hit. -/
theorem C3_ttl_law {α : Type} (c : DNSCache α) (k : String) (v : α)
    (ttl t0 : ℚ) (c0 : DNSCache α)
    (hwf : (c.entries.map Entry.key).Nodup)
    (hset : c.set k v (some ttl) t0 = Except.ok c0)
    (ops : List (CacheOp α)) (now : ℚ) (sc : Bool) :
    (safeRunHit k (t0 + ttl) c0 ops → now ≤ t0 + ttl →
        ((runOps c0 ops).get k now sc).1 = some v)
    ∧ ((∀ op ∈ ops, opOkNone k op) → t0 + ttl < now →
        ((runOps c0 ops).get k now sc).1 = none) := by
  have hms : 1 ≤ c.max_size := by
    by_contra hlt
    have h0 : c.max_size = 0 := by omega
    unfold DNSCache.set at hset
    rw [h0, evictRun_err] at hset
    simp at hset
  have hok := set_ok (c := c) hms k v (some ttl) t0
  rw [hset] at hok
  have hc0 := (Except.ok.inj hok).symm
  have hq0 : keyUnique k (Entry.mk k v (t0 + ttl)) c0 := by
    rw [← hc0]
    intro x hx hxk
    refine updAssoc_keyUnique ?_ x hx hxk
    exact List.Nodup.sublist
      (List.Sublist.map Entry.key (List.drop_sublist _ _)) hwf
  have hmem0 : Entry.mk k v (t0 + ttl) ∈ c0.entries := by
    rw [← hc0]
    exact mem_updAssoc_self _ _
  constructor
  · intro hrun hnow
    obtain ⟨hq1, hmem1⟩ := runOps_hit_inv ops c0 hrun hq0 hmem0 rfl
    exact get_hit_result _ hq1 hmem1 rfl now sc hnow
  · intro hops hnow
    have hq1 := runOps_none_inv ops c0 hops hq0
    exact get_none_result _ hq1 rfl now sc hnow

/-- The cache state after `set "k" 7 (ttl 5)` at time 0 on a fresh cache. -/
def c3WitnessCache : DNSCache Nat :=
  DNSCache.mk 10 300 [Entry.mk "k" 7 5] 0 0 0

/-- Witness for `C3_ttl_law`: a hit at time 3 < 5. -/
theorem C3_ttl_law_witness :
    ((runOps c3WitnessCache ([] : List (CacheOp Nat))).get "k" 3 false).1 = some 7 := by
  refine (C3_ttl_law (DNSCache.empty Nat 10 300) "k" 7 5 0 c3WitnessCache
      (by simp [DNSCache.empty]) ?_ [] 3 false).1 trivial (by norm_num)
  have h05 : (0 : ℚ) + 5 = 5 := by norm_num
  simp [DNSCache.set, DNSCache.empty, evictRun, updAssoc, c3WitnessCache, h05]

/-! ## Claim C7 — rate limiter token bucket -/

/-- The refill formula of the claim:
`min(burst, tokens + (now - last_update) * rate)`. -/
def refillAmount (b : TokenBucket) (now : ℚ) : ℚ :=
  min b.burst (b.tokens + (now - b.last_update) * b.rate)

theorem consume_eq (b : TokenBucket) (now : ℚ) :
    b.consume now 1 =
      (decide (1 ≤ refillAmount b now),
        TokenBucket.mk b.rate b.burst
          (if 1 ≤ refillAmount b now then refillAmount b now - 1 else refillAmount b now)
          now) := by
  unfold TokenBucket.consume refillAmount
  by_cases h : (1 : ℚ) ≤ min b.burst (b.tokens + (now - b.last_update) * b.rate)
  · simp [h]
  · simp [h]

theorem bucketFind_upd_self (l : List (String × TokenBucket)) (ip : String)
    (b : TokenBucket) : bucketFind (bucketUpd l ip b) ip = some b := by
  induction l with
  | nil => simp [bucketUpd, bucketFind]
  | cons p t ih =>
      obtain ⟨k, b'⟩ := p
      simp only [bucketUpd]
      by_cases hk : (k == ip) = true
      · rw [if_pos hk]
        unfold bucketFind
        rw [List.find?_cons_of_pos _ (by simpa using hk)]
        rfl
      · rw [if_neg hk]
        unfold bucketFind
        rw [List.find?_cons_of_neg _ (by simpa using hk)]
        exact ih

theorem statGet_bump_self (l : List (String × Nat)) (k : String) :
    statGet (bump l k) k = statGet l k + 1 := by
  induction l with
  | nil => simp [bump, statGet]
  | cons p t ih =>
      obtain ⟨k', n⟩ := p
      simp only [bump]
      by_cases hk : (k' == k) = true
      · rw [if_pos hk]
        unfold statGet
        rw [List.find?_cons_of_pos _ (by simpa using hk),
          List.find?_cons_of_pos _ (by simpa using hk)]
        rfl
      · rw [if_neg hk]
        unfold statGet
        rw [List.find?_cons_of_neg _ (by simpa using hk),
          List.find?_cons_of_neg _ (by simpa using hk)]
        exact ih

theorem statGet_bump_ne (l : List (String × Nat)) (k k2 : String) (h : k2 ≠ k) :
    statGet (bump l k2) k = statGet l k := by
  induction l with
  | nil =>
      simp only [bump, statGet]
      rw [List.find?_cons_of_neg _ (by simpa using h)]
  | cons p t ih =>
      obtain ⟨k', n⟩ := p
      simp only [bump]
      by_cases hk : (k' == k2) = true
      · rw [if_pos hk]
        have hk' : (k' == k) = false := by
          have : k' = k2 := by simpa using hk
          subst this
          simpa using h
        unfold statGet
        rw [List.find?_cons_of_neg _ (by simp [hk']),
          List.find?_cons_of_neg _ (by simp [hk'])]
      · rw [if_neg hk]
        by_cases hq : (k' == k) = true
        · unfold statGet
          rw [List.find?_cons_of_pos _ (by simpa using hq),
            List.find?_cons_of_pos _ (by simpa using hq)]
        · unfold statGet
          rw [List.find?_cons_of_neg _ (by simpa using hq),
            List.find?_cons_of_neg _ (by simpa using hq)]
          exact ih

theorem allowed_ne_blocked : ("allowed" : String) ≠ "blocked" := by decide

theorem blocked_ne_blockedIp (ip : String) :
    ("blocked" : String) ≠ "blocked_" ++ ip := by
  intro h
  have h2 := congrArg String.length h
  rw [String.length_append] at h2
  have h3 : ("blocked" : String).length = 7 := by decide
  have h4 : ("blocked_" : String).length = 8 := by decide
  omega

theorem allowed_ne_blockedIp (ip : String) :
    ("allowed" : String) ≠ "blocked_" ++ ip := by
  intro h
  have h2 := congrArg String.length h
  rw [String.length_append] at h2
  have h3 : ("allowed" : String).length = 7 := by decide
  have h4 : ("blocked_" : String).length = 8 := by decide
  omega

theorem consumeStep_spec (rl : RateLimiter) (bs : List (String × TokenBucket))
    (ip : String) (b0 : TokenBucket) (now : ℚ) :
    (consumeStep rl bs ip b0 now).1 = decide (1 ≤ refillAmount b0 now)
    ∧ (consumeStep rl bs ip b0 now).2.buckets =
        bucketUpd bs ip (TokenBucket.mk b0.rate b0.burst
          (if 1 ≤ refillAmount b0 now then refillAmount b0 now - 1
           else refillAmount b0 now) now)
    ∧ (consumeStep rl bs ip b0 now).2.stats =
        (if 1 ≤ refillAmount b0 now then bump rl.stats "allowed"
         else bump (bump rl.stats "blocked") ("blocked_" ++ ip)) := by
  simp only [consumeStep, consume_eq]
  by_cases h : 1 ≤ refillAmount b0 now
  · simp [h]
  · simp [h]

theorem cleanup_stats (rl : RateLimiter) (now : ℚ) :
    (rl.cleanup_if_needed now).stats = rl.stats := by
  unfold RateLimiter.cleanup_if_needed
  split
  · rfl
  · rfl

/-- Spec of the post-cleanup body: outcome, updated bucket, and statistics in
terms of the bucket the call operates on. -/
theorem isAllowedCore_spec (rl : RateLimiter) (ip : String) (now : ℚ) :
    (isAllowedCore rl ip now).1
        = decide (1 ≤ refillAmount (bucketForCallCore rl ip now) now)
    ∧ bucketFind (isAllowedCore rl ip now).2.buckets ip =
        some (TokenBucket.mk (bucketForCallCore rl ip now).rate
          (bucketForCallCore rl ip now).burst
          (if 1 ≤ refillAmount (bucketForCallCore rl ip now) now
           then refillAmount (bucketForCallCore rl ip now) now - 1
           else refillAmount (bucketForCallCore rl ip now) now) now)
    ∧ (isAllowedCore rl ip now).2.stats =
        (if 1 ≤ refillAmount (bucketForCallCore rl ip now) now
         then bump rl.stats "allowed"
         else bump (bump rl.stats "blocked") ("blocked_" ++ ip)) := by
  unfold isAllowedCore bucketForCallCore
  cases hf : bucketFind rl.buckets ip with
  | some b0 =>
      obtain ⟨h1, h2, h3⟩ := consumeStep_spec rl rl.buckets ip b0 now
      exact ⟨h1, by rw [h2, bucketFind_upd_self], h3⟩
  | none =>
      obtain ⟨h1, h2, h3⟩ := consumeStep_spec rl
        (rl.buckets ++ [(ip, TokenBucket.init rl.rate_per_ip rl.burst_per_ip now)])
        ip (TokenBucket.init rl.rate_per_ip rl.burst_per_ip now) now
      exact ⟨h1, by rw [h2, bucketFind_upd_self], h3⟩

/-- C7: every `is_allowed(ip)` call operates on the bucket present after the
cleanup / get-or-create steps, refills it to
`min(burst, tokens + (now - last_update) * rate)`, and then: if at least one
token is available it consumes exactly one and allows (bumping the `allowed`
counter), otherwise it leaves the refilled tokens unchanged, denies, and
increments both the total `blocked` counter and the per-IP blocked counter. -/
theorem C7_rate_limiter (rl0 : RateLimiter) (ip : String) (now : ℚ) :
    (rl0.is_allowed ip now).1
        = decide (1 ≤ refillAmount (rl0.bucketForCall ip now) now)
    ∧ bucketFind (rl0.is_allowed ip now).2.buckets ip =
        some (TokenBucket.mk (rl0.bucketForCall ip now).rate
          (rl0.bucketForCall ip now).burst
          (if 1 ≤ refillAmount (rl0.bucketForCall ip now) now
           then refillAmount (rl0.bucketForCall ip now) now - 1
           else refillAmount (rl0.bucketForCall ip now) now) now)
    ∧ statGet (rl0.is_allowed ip now).2.stats "allowed" =
        statGet rl0.stats "allowed" +
          (if 1 ≤ refillAmount (rl0.bucketForCall ip now) now then 1 else 0)
    ∧ statGet (rl0.is_allowed ip now).2.stats "blocked" =
        statGet rl0.stats "blocked" +
          (if 1 ≤ refillAmount (rl0.bucketForCall ip now) now then 0 else 1)
    ∧ statGet (rl0.is_allowed ip now).2.stats ("blocked_" ++ ip) =
        statGet rl0.stats ("blocked_" ++ ip) +
          (if 1 ≤ refillAmount (rl0.bucketForCall ip now) now then 0 else 1) := by
  obtain ⟨h1, h2, h3⟩ := isAllowedCore_spec (rl0.cleanup_if_needed now) ip now
  rw [cleanup_stats] at h3
  have hbc : rl0.bucketForCall ip now
      = bucketForCallCore (rl0.cleanup_if_needed now) ip now := rfl
  refine ⟨h1, h2, ?_, ?_, ?_⟩
  · rw [show rl0.is_allowed ip now = isAllowedCore (rl0.cleanup_if_needed now) ip now
        from rfl, h3, hbc]
    by_cases hall : 1 ≤ refillAmount (bucketForCallCore (rl0.cleanup_if_needed now) ip now) now
    · rw [if_pos hall, if_pos hall, statGet_bump_self]
    · rw [if_neg hall, if_neg hall,
        statGet_bump_ne _ _ _ (Ne.symm (allowed_ne_blockedIp ip)),
        statGet_bump_ne _ _ _ (Ne.symm allowed_ne_blocked)]
      omega
  · rw [show rl0.is_allowed ip now = isAllowedCore (rl0.cleanup_if_needed now) ip now
        from rfl, h3, hbc]
    by_cases hall : 1 ≤ refillAmount (bucketForCallCore (rl0.cleanup_if_needed now) ip now) now
    · rw [if_pos hall, if_pos hall,
        statGet_bump_ne _ _ _ allowed_ne_blocked]
      omega
    · rw [if_neg hall, if_neg hall,
        statGet_bump_ne _ _ _ (Ne.symm (blocked_ne_blockedIp ip)),
        statGet_bump_self]
  · rw [show rl0.is_allowed ip now = isAllowedCore (rl0.cleanup_if_needed now) ip now
        from rfl, h3, hbc]
    by_cases hall : 1 ≤ refillAmount (bucketForCallCore (rl0.cleanup_if_needed now) ip now) now
    · rw [if_pos hall, if_pos hall,
        statGet_bump_ne _ _ _ (allowed_ne_blockedIp ip)]
      omega
    · rw [if_neg hall, if_neg hall, statGet_bump_self,
        statGet_bump_ne _ _ _ (blocked_ne_blockedIp ip)]

/-! ## Claim C8 — health score -/

/-- An unhealthy server with success rate 1/2 and no latency samples. -/
def c8Metrics : ServerMetrics :=
  { ServerMetrics.init with
    is_healthy := false, total_queries := 2,
    successful_queries := 1, failed_queries := 1, consecutive_failures := 3 }

/-- C8 counterexample: the claim says `health_score` equals
`success_rate × latency_penalty` and is determined by those two quantities
alone — but for a server marked unhealthy the source returns 0 regardless:
here `success_rate × penalty = 1/2` while `health_score = 0`. -/
theorem C8_counterexample :
    ServerMetrics.health_score c8Metrics ≠
      ServerMetrics.success_rate c8Metrics *
        latencyPenaltySpec (ServerMetrics.average_response_time c8Metrics) := by
  simp only [c8Metrics, ServerMetrics.init, ServerMetrics.health_score,
    ServerMetrics.success_rate, ServerMetrics.average_response_time,
    latencyPenaltySpec]
  norm_num

/-- C8 (amended): while the server is marked healthy, `health_score` equals
`success_rate` times the latency penalty (factor 1 up to 100 ms average
latency, linear attenuation above, capped at 0.5 from 1000 ms); while marked
unhealthy the score is 0 regardless of those quantities.  Whenever
`successful_queries ≤ total_queries` the score lies in `[0, 1]`. -/
theorem C8_health_score (m : ServerMetrics) :
    (m.is_healthy = true →
      m.health_score = m.success_rate * latencyPenaltySpec m.average_response_time)
    ∧ (m.is_healthy = false → m.health_score = 0)
    ∧ (m.successful_queries ≤ m.total_queries →
        0 ≤ m.health_score ∧ m.health_score ≤ 1) := by
  refine ⟨?_, ?_, ?_⟩
  · intro hh
    simp only [ServerMetrics.health_score, latencyPenaltySpec, hh, Bool.not_true,
      Bool.false_eq_true, if_false]
    cases havg : m.average_response_time with
    | none => simp
    | some a =>
        by_cases ha : a > 100
        · simp [ha]
        · simp [ha]
  · intro hh
    simp [ServerMetrics.health_score, hh]
  · intro hle
    have hr0 : 0 ≤ m.success_rate := by
      unfold ServerMetrics.success_rate
      split
      · norm_num
      · positivity
    have hr1 : m.success_rate ≤ 1 := by
      unfold ServerMetrics.success_rate
      split
      · norm_num
      · rename_i h0
        rw [div_le_one (by exact_mod_cast Nat.pos_of_ne_zero h0)]
        exact_mod_cast hle
    simp only [ServerMetrics.health_score]
    by_cases hh : m.is_healthy
    · rw [if_neg (by simp [hh])]
      cases havg : m.average_response_time with
      | none => exact ⟨hr0, hr1⟩
      | some a =>
          by_cases ha : a > 100
          · simp only [if_pos ha]
            have hmin0 : 0 ≤ min ((a - 100) / 900) (1 / 2 : ℚ) := by
              apply le_min
              · have h100 : (0 : ℚ) < a - 100 := by linarith
                positivity
              · norm_num
            have hmin1 : min ((a - 100) / 900) (1 / 2 : ℚ) ≤ 1 / 2 :=
              min_le_right _ _
            constructor
            · exact mul_nonneg hr0 (by linarith)
            · exact mul_le_one hr1 (by linarith) (by linarith)
          · simp only [if_neg ha]
            exact ⟨hr0, hr1⟩
    · rw [if_pos (by simp [hh])]
      norm_num

/-- A healthy server with success rate 1/2 and one 0.25 s latency sample. -/
def c8WitnessMetrics : ServerMetrics :=
  { ServerMetrics.init with
    total_queries := 2, successful_queries := 1, failed_queries := 1,
    response_times := [1 / 4] }

/-- Witness for `C8_health_score` at a concrete healthy metrics value. -/
theorem C8_health_score_witness :
    ServerMetrics.health_score c8WitnessMetrics =
      ServerMetrics.success_rate c8WitnessMetrics *
        latencyPenaltySpec (ServerMetrics.average_response_time c8WitnessMetrics)
    ∧ (0 ≤ ServerMetrics.health_score c8WitnessMetrics
        ∧ ServerMetrics.health_score c8WitnessMetrics ≤ 1) :=
  ⟨(C8_health_score c8WitnessMetrics).1 rfl,
    (C8_health_score c8WitnessMetrics).2.2 (by decide)⟩

/-! ## Claim C5 — health state transitions -/

/-- One load-path observation fed to the monitor, with no latency sample. -/
def c5Step (st : MonitorState) (result : QueryResult) (now : ℚ) : MonitorState :=
  recordQueryResult HealthCheckConfig.defaults st result none now

/-- A fresh server after three consecutive failures recorded at times 10, 11,
12 — all outside the 5 s startup grace window. -/
def c5AfterFailures : MonitorState :=
  c5Step (c5Step (c5Step (MonitorState.mk ServerMetrics.init 0)
    QueryResult.timeout 10) QueryResult.timeout 11) QueryResult.timeout 12

/-- C5 failing input: the server goes Unhealthy at the third consecutive
failure as the claim states, but then a **single** recorded success flips it
back to Healthy — `ServerMetrics.record_query` resets `is_healthy` on any
success, so the monitor's `recovery_threshold = 2` check is dead code.  The
claim's "a single success while Unhealthy does not suffice" contradicts the
code. -/
theorem C5_code_bug :
    c5AfterFailures.metrics.is_healthy = false
    ∧ c5AfterFailures.metrics.consecutive_failures = 3
    ∧ (c5Step c5AfterFailures QueryResult.success 13).metrics.is_healthy = true := by
  have h1 : ¬ ((10 : ℚ) - 0 < 5) := by norm_num
  have h2 : ¬ ((11 : ℚ) - 0 < 5) := by norm_num
  have h3 : ¬ ((12 : ℚ) - 0 < 5) := by norm_num
  refine ⟨?_, ?_, ?_⟩ <;>
    norm_num [c5AfterFailures, c5Step, recordQueryResult, ServerMetrics.record_query,
      ServerMetrics.mark_unhealthy, HealthCheckConfig.defaults,
      HEALTH_CHECK_STARTUP_DELAY, ServerMetrics.init, h1, h2, h3]

/-! ## Claim C9 — UDP response/request correlation -/

theorem pendFind_upd_self (l : List (Nat × String)) (q : Nat) (a : String) :
    pendFind (pendUpd l q a) q = some a := by
  induction l with
  | nil => simp [pendUpd, pendFind]
  | cons p t ih =>
      obtain ⟨k, a'⟩ := p
      simp only [pendUpd]
      by_cases hk : (k == q) = true
      · rw [if_pos hk]
        unfold pendFind
        rw [List.find?_cons_of_pos _ (by simpa using hk)]
        rfl
      · rw [if_neg hk]
        unfold pendFind
        rw [List.find?_cons_of_neg _ (by simpa using hk)]
        exact ih

theorem pendUpd_of_absent {l : List (Nat × String)} {q : Nat}
    (h : pendFind l q = none) (a : String) : pendUpd l q a = l ++ [(q, a)] := by
  induction l with
  | nil => simp [pendUpd]
  | cons p t ih =>
      obtain ⟨k, a'⟩ := p
      unfold pendFind at h
      by_cases hk : (k == q) = true
      · rw [List.find?_cons_of_pos _ (by simpa using hk)] at h
        simp at h
      · rw [List.find?_cons_of_neg _ (by simpa using hk)] at h
        simp only [pendUpd]
        rw [if_neg hk, ih h]
        simp

theorem pendUpd_append_of_none {l : List (Nat × String)} {q : Nat}
    (h : pendFind l q = none) (l2 : List (Nat × String)) {b : String} :
    pendUpd (l ++ l2) q b = l ++ pendUpd l2 q b := by
  induction l with
  | nil => simp
  | cons p t ih =>
      obtain ⟨k, a'⟩ := p
      unfold pendFind at h
      by_cases hk : (k == q) = true
      · rw [List.find?_cons_of_pos _ (by simpa using hk)] at h
        simp at h
      · rw [List.find?_cons_of_neg _ (by simpa using hk)] at h
        simp only [List.cons_append, pendUpd]
        rw [if_neg hk]
        simp [ih h]

theorem pendFind_append_of_none {l : List (Nat × String)} {q : Nat}
    (h : pendFind l q = none) (l2 : List (Nat × String)) :
    pendFind (l ++ l2) q = pendFind l2 q := by
  induction l with
  | nil => simp
  | cons p t ih =>
      obtain ⟨k, a'⟩ := p
      unfold pendFind at h ⊢
      by_cases hk : (k == q) = true
      · rw [List.find?_cons_of_pos _ (by simpa using hk)] at h
        simp at h
      · rw [List.find?_cons_of_neg _ (by simpa using hk)] at h
        rw [List.cons_append, List.find?_cons_of_neg _ (by simpa using hk)]
        exact ih h

theorem pendDel_append_of_none {l : List (Nat × String)} {q : Nat}
    (h : pendFind l q = none) (l2 : List (Nat × String)) :
    pendDel (l ++ l2) q = l ++ pendDel l2 q := by
  induction l with
  | nil => simp
  | cons p t ih =>
      obtain ⟨k, a'⟩ := p
      unfold pendFind at h
      by_cases hk : (k == q) = true
      · rw [List.find?_cons_of_pos _ (by simpa using hk)] at h
        simp at h
      · rw [List.find?_cons_of_neg _ (by simpa using hk)] at h
        simp only [List.cons_append, pendDel]
        rw [if_neg hk]
        simp [ih h]

/-- The two-client, same-id collision replayed from the empty protocol state:
client `10.0.0.1` and client `10.0.0.2` both send id 5; the resolution of the
first client's query completes (response token 100). -/
def c9Trace : ProtoState :=
  send_response
    (datagramReceived (datagramReceived (ProtoState.mk [] []) 5 "10.0.0.1")
      5 "10.0.0.2") 5 100

/-- C9 counterexample: the response answering client `10.0.0.1`'s request is
written to client `10.0.0.2` (the later arrival overwrote the stored address
for id 5), and the second completion is silently dropped — so two in-flight
queries sharing an id are **not** each answered to their own sender. -/
theorem C9_counterexample :
    c9Trace.sent = [("10.0.0.2", 100)]
    ∧ (send_response c9Trace 5 200).sent = [("10.0.0.2", 100)]
    ∧ ("10.0.0.2" : String) ≠ "10.0.0.1" := by
  refine ⟨?_, ?_, by decide⟩
  · decide
  · decide

/-- C9 (amended): correlation is by message id alone in a single map.
(1) a received datagram stores its sender under the id, overwriting any
previous entry; (2) when two in-flight queries share an id, the first
completed response is sent to the **later** sender; (3) the other completion
then finds no entry and sends nothing; (4) two in-flight queries with distinct
ids are each answered to their own sender. -/
theorem C9_id_correlation (st : ProtoState) (q q' : Nat) (a b c : String)
    (r r2 : Nat) :
    pendFind ((datagramReceived st q a).pending) q = some a
    ∧ (send_response (datagramReceived (datagramReceived st q a) q b) q r).sent
        = st.sent ++ [(b, r)]
    ∧ (pendFind st.pending q = none →
        send_response
          (send_response (datagramReceived (datagramReceived st q a) q b) q r) q r2
        = send_response (datagramReceived (datagramReceived st q a) q b) q r)
    ∧ (pendFind st.pending q = none → pendFind st.pending q' = none → q' ≠ q →
        (send_response (send_response
            (datagramReceived (datagramReceived st q a) q' c) q r) q' r2).sent
          = st.sent ++ [(a, r), (c, r2)]) := by
  have hbeq : ∀ (x y : Nat), x ≠ y → (x == y) = false :=
    fun x y hxy => beq_eq_false_iff_ne.mpr hxy
  refine ⟨pendFind_upd_self _ _ _, ?_, ?_, ?_⟩
  · simp only [send_response, datagramReceived, pendFind_upd_self]
  · intro hq
    have hupd1 : pendUpd st.pending q a = st.pending ++ [(q, a)] :=
      pendUpd_of_absent hq a
    have hupd2 : pendUpd (pendUpd st.pending q a) q b = st.pending ++ [(q, b)] := by
      rw [hupd1, pendUpd_append_of_none hq]
      simp [pendUpd]
    simp only [send_response, datagramReceived, hupd2]
    rw [pendFind_append_of_none hq]
    have hfb : pendFind [(q, b)] q = some b := by simp [pendFind]
    simp only [hfb]
    rw [pendDel_append_of_none hq]
    have hdb : pendDel [(q, b)] q = [] := by simp [pendDel]
    simp only [hdb, List.append_nil, hq]
  · intro hq hq' hne
    have hne' : q ≠ q' := Ne.symm hne
    have hupd1 : pendUpd st.pending q a = st.pending ++ [(q, a)] :=
      pendUpd_of_absent hq a
    have hfind1 : pendFind (st.pending ++ [(q, a)]) q' = none := by
      rw [pendFind_append_of_none hq']
      simp [pendFind, hbeq q q' hne']
    have hupd2 : pendUpd (st.pending ++ [(q, a)]) q' c
        = st.pending ++ [(q, a), (q', c)] := by
      rw [pendUpd_of_absent hfind1 c, List.append_assoc]
      rfl
    simp only [send_response, datagramReceived, hupd1, hupd2]
    rw [pendFind_append_of_none hq]
    have hfa : pendFind [(q, a), (q', c)] q = some a := by simp [pendFind]
    simp only [hfa]
    rw [pendDel_append_of_none hq]
    have hda : pendDel [(q, a), (q', c)] q = [(q', c)] := by simp [pendDel]
    simp only [hda]
    rw [pendFind_append_of_none hq']
    have hfc : pendFind [(q', c)] q' = some c := by simp [pendFind]
    simp only [hfc, List.append_assoc]
    rfl

/-- Witness for `C9_id_correlation`: two distinct-id queries from the empty
state are each answered to their own sender. -/
theorem C9_id_correlation_witness :
    (send_response (send_response
        (datagramReceived (datagramReceived (ProtoState.mk [] []) 7 "a.example")
          9 "c.example") 7 301) 9 302).sent
      = [("a.example", 301), ("c.example", 302)] := by
  have h := (C9_id_correlation (ProtoState.mk [] []) 7 9 "a.example" "b"
    "c.example" 301 302).2.2.2
  simpa using h rfl rfl (by decide)

/-! ## Claim C6 — upstream failover -/

/-- Three healthy upstreams with distinct priorities, failover order
u1 < u2 < u3. -/
def c6Servers : List ServerHealth :=
  [ServerHealth.mk (UpstreamServer.mk "u1" "10.0.0.1" 53 100 1) ServerMetrics.init,
   ServerHealth.mk (UpstreamServer.mk "u2" "10.0.0.2" 53 100 2) ServerMetrics.init,
   ServerHealth.mk (UpstreamServer.mk "u3" "10.0.0.3" 53 100 3) ServerMetrics.init]

/-- The answer u2 and u3 would return. -/
def c6Answer : Message :=
  Message.mk [RRHeader.mk "x.test" dnsA dnsIN 60 42] [] []

/-- u1 raises `DNSServerError`; u2 and u3 answer. -/
def c6Behavior (t : String × Nat) : UpstreamOutcome :=
  if t.1 == "10.0.0.1" then UpstreamOutcome.serverError
  else UpstreamOutcome.answers c6Answer

/-- u1 times out; u2 and u3 answer. -/
def c6BehaviorTimeout (t : String × Nat) : UpstreamOutcome :=
  if t.1 == "10.0.0.1" then UpstreamOutcome.queryTimeout
  else UpstreamOutcome.answers c6Answer

/-- C6 failing input: with three healthy upstreams under the failover strategy
where the first raises `DNSServerError` and the other two would answer, the
resolver records the refusal but every fallback-loop iteration dies on the
unbound name `timeout` (swallowed by the bare `except: continue`), so the
original exception propagates and the client gets SERVFAIL even though two
healthy upstreams would have answered.  On a `Timeout` the code re-raises with
no fallback attempt at all.  Both contradict the claim that up to K-1 = 2
additional upstreams are tried, succeeding if any answers. -/
theorem C6_code_bug :
    (forward_to_upstream failoverSelect c6Servers c6Behavior).result
        = Except.error "DNSServerError"
    ∧ (forward_to_upstream failoverSelect c6Servers c6Behavior).recorded
        = [("u1", QueryResult.refused)]
    ∧ c6Behavior ("10.0.0.2", 53) = UpstreamOutcome.answers c6Answer
    ∧ (forward_to_upstream failoverSelect c6Servers c6BehaviorTimeout).result
        = Except.error "TimeoutError"
    ∧ (forward_to_upstream failoverSelect c6Servers c6BehaviorTimeout).recorded
        = [("u1", QueryResult.timeout)]
    ∧ ("timeout" ∈ forwardLoopScope) = False := by
  refine ⟨?_, ?_, by decide, ?_, ?_, by simp [forwardLoopScope]⟩ <;> rfl

end DnsProxy
